import Mathlib

/-!
# Verification of `blueflower/core.py`

A shallow embedding of the core module of blueflower: the password-gated
hash-list activator (`get_hashes`), the traversal sizing pass (`init`), the
dispatch/scanning pass (`scan`), and the log summariser (`count_secrets`).

External collaborators (the key-derivation primitive `key_derivation`, the
regex engine `re.compile`, the classifier `type_file`, the content scanner
`do_file`, and the configured constants `HASH_BYTES`, `SKIP`, `ENCRYPTED`,
`INFILENAME`) live outside this module and are modelled as parameters.
File I/O is modelled by passing the file's contents (the artifact's lines,
the log text) as values.
-/

namespace Blueflower

/-- The process-wide mutable globals of the module:
`HASHES = frozenset()`, `HASH_KEY = 0`, `HASH_REGEX = ''`.
The frozenset is modelled as a duplicate-free list (`List.dedup` image);
the key (bytes in Python) is modelled as a `Nat`, `0` when unset. -/
structure GState where
  HASHES : List String
  HASH_KEY : Nat
  HASH_REGEX : String
deriving DecidableEq, Repr

/-- The initial globals, before `get_hashes` runs. -/
def initState : GState := ⟨[], 0, ""⟩

/-- The hash-list artifact: line 1 is the detection-regex text, line 2 the
`salt,verifier` line, lines 3..N one candidate hash per line.  Lines 1 and 2
are modelled after `readline().rstrip('\n')`, i.e. without their trailing
newline; the hash lines are raw lines (the code `strip()`s each one). -/
structure Artifact where
  regexLine : String
  secondLine : String
  hashLines : List String
deriving DecidableEq, Repr

/-- How `get_hashes` terminates:
`parseAbort` — the second line did not split into two fields, `bye()`;
`verifyAbort` — some validation failed, `bye()` after the loop;
`activated` — full success, globals committed. -/
inductive Outcome where
  | parseAbort
  | verifyAbort
  | activated
deriving DecidableEq, Repr

/-- Python's default whitespace set for `str.strip()` (space, tab, newline,
carriage return, vertical tab, form feed). -/
def isPySpace (c : Char) : Bool :=
  c = ' ' || c = '\t' || c = '\n' || c = '\r' || c = '\x0b' || c = '\x0c'

/-- Python's `s.strip()`: drop leading and trailing whitespace. -/
def pyStrip (s : String) : String :=
  ⟨((s.toList.dropWhile isPySpace).reverse.dropWhile isPySpace).reverse⟩

/-- Accumulating splitter for `str.split(sep)` with a one-character
separator: every occurrence of `sep` ends a field. -/
def pySplitAux (sep : Char) : List Char → List Char → List (List Char)
  | [], cur => [cur.reverse]
  | c :: rest, cur =>
      if c = sep then cur.reverse :: pySplitAux sep rest []
      else pySplitAux sep rest (c :: cur)

/-- Python's `s.split(',')`. -/
def pySplitComma (s : String) : List String :=
  (pySplitAux ',' s.toList []).map (fun l => ⟨l⟩)

/-- Hex-digit test matching Python's `int(_, 16)` digit set. -/
def isHexDigitChar (c : Char) : Bool :=
  c.isDigit || ('a' ≤ c && c ≤ 'f') || ('A' ≤ c && c ≤ 'F')

/-- A nonempty run of hex digits. -/
def hexDigitsOk (l : List Char) : Bool :=
  !l.isEmpty && l.all isHexDigitChar

/-- After an optional sign: an optional `0x`/`0X` prefix, then hex digits. -/
def hexBodyOk : List Char → Bool
  | '0' :: x :: rest =>
      if x = 'x' ∨ x = 'X' then hexDigitsOk rest else hexDigitsOk ('0' :: x :: rest)
  | l => hexDigitsOk l

/-- Python 2's `int(s, 16)` succeeds (no surrounding whitespace, which the
caller has already stripped): optional sign, optional `0x` prefix, at least
one hex digit. -/
def pyIntHexOk (s : String) : Bool :=
  match s.toList with
  | '+' :: rest => hexBodyOk rest
  | '-' :: rest => hexBodyOk rest
  | l => hexBodyOk l

/-- Log message for a hash line of the wrong length
(`'invalid hash length (%d bytes): %s'`). -/
def lenMsg (ahash : String) : String :=
  "invalid hash length (" ++ toString ahash.length ++ " bytes): " ++ ahash

/-- Log message for a non-hex hash line
(`'invalid hash value (should be hex string): %s'`). -/
def hexMsg (ahash : String) : String :=
  "invalid hash value (should be hex string): " ++ ahash

/-- A hash line passes both per-line checks: stripped length is exactly
`2*HASH_BYTES` and the stripped text parses as hex. -/
def lineValid (b : Nat) (line : String) : Bool :=
  ((pyStrip line).length == 2 * b) && pyIntHexOk (pyStrip line)

/-- The hash-line loop of `get_hashes` (core.py lines 73-90): threads the
`fail` flag, buffers the stripped hash only when `fail` is still false
after this line's own checks (`if not fail: hashes.append(ahash)`), and
logs each violation per line.  Returns `(fail, hashes, log)`. -/
def checkHashLines (b : Nat) : Bool → List String → Bool × List String × List String
  | fail, [] => (fail, [], [])
  | fail, line :: rest =>
      let ahash := pyStrip line
      let log₁ : List String := if ahash.length ≠ 2 * b then [lenMsg ahash] else []
      let log₂ : List String := if ¬ pyIntHexOk ahash then [hexMsg ahash] else []
      let fail' := fail || decide (ahash.length ≠ 2 * b) || !pyIntHexOk ahash
      let buf : List String := if fail' then [] else [ahash]
      let r := checkHashLines b fail' rest
      (r.1, buf ++ r.2.1, log₁ ++ log₂ ++ r.2.2)

/-- `get_hashes(hashesfile)` (core.py lines 41-101), shallowly embedded.

Parameters standing for externals: `b` is `HASH_BYTES`; `regexOk r` models
`re.compile(r)` succeeding; `kd pwd salt` models
`key_derivation(pwd, salt) = (key, averifier, salt)`.  The artifact's lines
stand for the opened file, `pwd` for the interactive password.

Returns the outcome (`bye()` exits are the two abort outcomes), the final
globals, and the list of `log_comment` messages in order. -/
def get_hashes (b : Nat) (regexOk : String → Bool)
    (kd : String → String → Nat × String × String)
    (pwd hashesfile : String) (art : Artifact) :
    Outcome × GState × List String :=
  let log₀ := ["verifying hashes file " ++ hashesfile ++ "..."]
  match pySplitComma art.secondLine with
  | [salt, verifier] =>
      let key := (kd pwd salt).1
      let averifier := (kd pwd salt).2.1
      let vfail : Bool := verifier != averifier
      let st₁ : GState :=
        if vfail then initState
        else { initState with HASH_KEY := key, HASH_REGEX := art.regexLine }
      let log₁ := log₀ ++
        (if vfail then ["verifier does not match (incorrect password?)"] else [])
      let rfail : Bool := !regexOk art.regexLine
      let log₂ := log₁ ++ (if rfail then ["invalid regex"] else [])
      let r := checkHashLines b (vfail || rfail) art.hashLines
      let log₃ := log₂ ++ r.2.2
      if r.1 then
        (Outcome.verifyAbort, st₁,
         log₃ ++ ["hashes file failed to verify, aborting..."])
      else
        let hashes := r.2.1
        let st₂ : GState := { st₁ with HASHES := hashes.dedup }
        (Outcome.activated, st₂,
         log₃ ++ [toString hashes.length ++ " hashes read, " ++
                    toString hashes.dedup.length ++ " uniques",
                  "using regex " ++ st₂.HASH_REGEX,
                  "hashes file successfully verified"])
  | _ =>
      (Outcome.parseAbort, initState,
       log₀ ++ ["failed to extract verifier and salt"])

/-! ## Filesystem model and the two walk passes -/

/-- A filesystem subtree: a file with a name and a size (`none` models
`os.path.getsize` raising `OSError`), or a directory with a name and
children. -/
inductive FSTree where
  | file (name : String) (size : Option Nat)
  | dir (name : String) (children : List FSTree)
deriving Repr

/-- The node's own name. -/
def FSTree.name : FSTree → String
  | .file n _ => n
  | .dir n _ => n

/-- Whether the node is a directory (would appear in `os.walk`'s `dirs`). -/
def FSTree.isDir : FSTree → Bool
  | .dir _ _ => true
  | .file _ _ => false

/-- `dirs.remove(skip)`: remove the first directory child named `skip`
(files are not in `dirs` and are unaffected). -/
def removeFirstDir (skip : String) : List FSTree → List FSTree
  | [] => []
  | t :: ts =>
      if t.isDir && t.name == skip then ts
      else t :: removeFirstDir skip ts

/-- The pruning loop `for skip in SKIP: if skip in dirs: dirs.remove(skip)`
run over the configured exclusion names. -/
def pruneDirs (SKIP : List String) (cs : List FSTree) : List FSTree :=
  SKIP.foldl (fun acc s => removeFirstDir s acc) cs

/-- A file enumerated by a walk: the directory names leading from the walk
root down to it (root excluded), its basename, and its size. -/
structure FileEntry where
  dirs : List String
  name : String
  size : Option Nat
deriving DecidableEq, Repr

theorem mem_removeFirstDir {s : String} {t : FSTree} :
    ∀ {ts : List FSTree}, t ∈ removeFirstDir s ts → t ∈ ts := by
  intro ts
  induction ts with
  | nil => simp [removeFirstDir]
  | cons u us ih =>
      simp only [removeFirstDir]
      by_cases h : (u.isDir && u.name == s) = true
      · simp [h]; exact fun hm => Or.inr hm
      · simp [h]
        rintro (rfl | hm)
        · exact Or.inl rfl
        · exact Or.inr (ih hm)

theorem mem_pruneDirs {t : FSTree} :
    ∀ {SKIP : List String} {cs : List FSTree}, t ∈ pruneDirs SKIP cs → t ∈ cs := by
  intro SKIP
  induction SKIP with
  | nil => intro cs h; exact h
  | cons s ss ih =>
      intro cs h
      exact mem_removeFirstDir (ih h)

/-- `os.walk` with the in-place pruning used identically by `init` and
`scan` (core.py lines 109-114 and 147-152): at each directory, the files of
that directory are enumerated, directory children named in `SKIP` are
removed before descending, and the walk recurses into the surviving
directories.  `pre` accumulates the directory names below the walk root. -/
def walkFrom (SKIP : List String) : List String → FSTree → List FileEntry
  | _, .file _ _ => []
  | pre, .dir _ cs =>
      (cs.filterMap (fun t => match t with
        | .file n sz => some ⟨pre, n, sz⟩
        | .dir _ _ => none)) ++
      ((pruneDirs SKIP cs).attach.map
        (fun t => walkFrom SKIP (pre ++ [t.1.name]) t.1)).flatten
termination_by _ t => sizeOf t
decreasing_by
  have h1 : t.1 ∈ cs := mem_pruneDirs t.2
  have h2 := List.sizeOf_lt_of_mem h1
  simp only [FSTree.dir.sizeOf_spec]
  omega

/-- The file count of the sizing pass `init` (`count`). -/
def initCount (SKIP : List String) (tree : FSTree) : Nat :=
  (walkFrom SKIP [] tree).length

/-- The byte total of the sizing pass `init` (`total_size`): sizes that
fail to stat are logged as errors and contribute nothing. -/
def initSize (SKIP : List String) (tree : FSTree) : Nat :=
  ((walkFrom SKIP [] tree).map (fun e => e.size.getD 0)).sum

/-- The unit labels of `init`'s human-scaling loop. -/
def unitNames : List String := ["bytes", "KiB", "MiB", "GiB", "TiB"]

/-- `init`'s trailing loop (core.py lines 124-129): repeatedly divide
`readable` by 1024 over the unit list; `return count` fires at the first
unit where `readable < 1024`; exhausting the list falls off the function,
returning `None`.  `readable` is modelled as an exact rational: the float
divisions by `1024.0` only decrement the exponent and are exact, and
int-to-float conversion is exact below `2^53` while above it the rounding
(relative error `2^-53`) cannot move a value across a `1024` threshold. -/
def unitLoop (count : Nat) : ℚ → List String → Option Nat
  | _, [] => none
  | readable, _ :: rest =>
      if readable < 1024 then some count
      else unitLoop count (readable / 1024) rest

/-- `init(path)` (core.py lines 104-129): walk, count files, sum sizes,
then the human-scaling loop decides whether the count is returned at all. -/
def init (SKIP : List String) (tree : FSTree) : Option Nat :=
  unitLoop (initCount SKIP tree) ((initSize SKIP tree : ℚ)) unitNames

/-! ## Dispatch pass -/

/-- Observable actions of the dispatch loop: `log_secret(res.group(), abspath)`
on a filename match, `log_encrypted(ftype, afile)` for a supported encrypted
file, and the external `do_file(ftype, abspath)` invocation. -/
inductive Event where
  | secretName (group : String) (abspath : String)
  | encryptedNotice (ftype : String) (name : String)
  | doFile (ftype : String) (abspath : String)
deriving DecidableEq, Repr

/-- The path `os.path.join(root, afile)` of an enumerated file, relative to
the walk root (the constant absolute prefix above the root is elided). -/
def entryPath (e : FileEntry) : String :=
  String.intercalate "/" (e.dirs ++ [e.name])

/-- The body of `scan`'s per-file loop (core.py lines 154-173).
`nameMatch` models `infilename.search` on the lowercased basename,
returning the matched group; `classify` models `type_file(abspath)`;
`ENCRYPTED` is the configured encrypted-type set.  The accumulator carries
`scanned` and the events so far; the progress bar is cosmetic stdout
output and not modelled. -/
def dispatchFile (nameMatch : String → Option String)
    (classify : FileEntry → String × Bool) (ENCRYPTED : List String)
    (acc : Nat × List Event) (e : FileEntry) : Nat × List Event :=
  let evs₁ := match nameMatch e.name.toLower with
    | some g => acc.2 ++ [Event.secretName g (entryPath e)]
    | none => acc.2
  let ftype := (classify e).1
  let supported := (classify e).2
  if supported then
    if ftype ∈ ENCRYPTED then (acc.1, evs₁ ++ [Event.encryptedNotice ftype e.name])
    else (acc.1 + 1, evs₁ ++ [Event.doFile ftype (entryPath e)])
  else (acc.1, evs₁)

/-- `scan(path, count)` (core.py lines 132-178): re-walk with the same
exclusion policy and dispatch every enumerated file; returns `scanned`
and the events in order. -/
def scan (SKIP : List String) (nameMatch : String → Option String)
    (classify : FileEntry → String × Bool) (ENCRYPTED : List String)
    (tree : FSTree) : Nat × List Event :=
  (walkFrom SKIP [] tree).foldl (dispatchFile nameMatch classify ENCRYPTED) (0, [])

/-! ## Report summary -/

/-- The fixed finding marker consumed by `count_secrets`. -/
def secretToken : List Char := "SECRET,".toList

/-- Python's `str.count(sub)` for a nonempty `sub`: scan left to right,
counting non-overlapping occurrences (a match advances past the whole
needle). -/
def pyCount (needle : List Char) : List Char → Nat
  | [] => 0
  | c :: rest =>
      if needle ≠ [] ∧ needle.isPrefixOf (c :: rest) then
        1 + pyCount needle (rest.drop (needle.length - 1))
      else pyCount needle rest
termination_by l => l.length
decreasing_by
  · simp only [List.length_cons]
    have := List.length_drop (needle.length - 1) rest
    omega
  · simp only [List.length_cons]
    omega

/-- `count_secrets(logfile)` (core.py lines 181-184): read the log text,
count `'SECRET,'` occurrences, emit the summary comment.  The Python
function has no `return` statement, so its value is `None`, modelled as
the `none` first component. -/
def count_secrets (logs : String) : Option Nat × List String :=
  let secrets := pyCount secretToken logs.toList
  (none, [toString secrets ++ " files or strings flagged as \"secret\""])

/-! ## Lemmas about the hash-line loop -/

theorem failStep_eq (b : Nat) (line : String) (fail : Bool) :
    (fail || decide ((pyStrip line).length ≠ 2 * b) || !pyIntHexOk (pyStrip line)) =
      (fail || !lineValid b line) := by
  simp only [lineValid, Bool.not_and, decide_not]
  cases fail <;> cases h : pyIntHexOk (pyStrip line) <;>
    cases h2 : ((pyStrip line).length == 2 * b) <;>
      simp_all [Nat.beq_eq]

theorem checkHashLines_buffer (b : Nat) :
    ∀ (lines : List String) (fail : Bool),
    (checkHashLines b fail lines).2.1 =
      if fail then [] else (lines.takeWhile (lineValid b)).map pyStrip := by
  intro lines
  induction lines with
  | nil => intro fail; cases fail <;> simp [checkHashLines]
  | cons line rest ih =>
      intro fail
      simp only [checkHashLines]
      rw [failStep_eq]
      cases fail with
      | true => simpa using ih true
      | false =>
          cases hv : lineValid b line with
          | true => simp [ih, List.takeWhile_cons, hv]
          | false => simp [ih, List.takeWhile_cons, hv]

theorem checkHashLines_fail_eq (b : Nat) :
    ∀ (lines : List String) (fail : Bool),
    (checkHashLines b fail lines).1 =
      (fail || lines.any (fun l => !lineValid b l)) := by
  intro lines
  induction lines with
  | nil => intro fail; simp [checkHashLines]
  | cons line rest ih =>
      intro fail
      simp only [checkHashLines]
      rw [failStep_eq, ih]
      cases fail <;> cases hv : lineValid b line <;> simp [hv]

theorem checkHashLines_log_of_badlen (b : Nat) :
    ∀ (lines : List String) (fail : Bool) (l : String), l ∈ lines →
    (pyStrip l).length ≠ 2 * b →
    lenMsg (pyStrip l) ∈ (checkHashLines b fail lines).2.2 := by
  intro lines
  induction lines with
  | nil => intro fail l hl; cases hl
  | cons x xs ih =>
      intro fail l hl h
      simp only [checkHashLines, List.mem_append]
      rcases List.mem_cons.1 hl with rfl | hm
      · left; left; simp [h]
      · right; exact ih _ l hm h

theorem checkHashLines_log_of_badhex (b : Nat) :
    ∀ (lines : List String) (fail : Bool) (l : String), l ∈ lines →
    pyIntHexOk (pyStrip l) = false →
    hexMsg (pyStrip l) ∈ (checkHashLines b fail lines).2.2 := by
  intro lines
  induction lines with
  | nil => intro fail l hl; cases hl
  | cons x xs ih =>
      intro fail l hl h
      simp only [checkHashLines, List.mem_append]
      rcases List.mem_cons.1 hl with rfl | hm
      · left; right; simp [h]
      · right; exact ih _ l hm h

/-! ## Concrete fixtures for counterexamples and witnesses -/

/-- A concrete stand-in for `key_derivation`: key `7`, verifier `"V"`. -/
def kdV : String → String → Nat × String × String := fun _ salt => (7, "V", salt)

/-! ## C1 — partial activation of key and regex -/

/-- C1 counterexample: an artifact whose stored verifier matches the
computed one (`kdV` yields `"V"`) but whose regex fails to compile.
Validation fails (`verifyAbort`, core.py line 95 `bye()`), yet the key and
the regex have already been committed to the globals (core.py lines 63-64),
refuting the claim that on any validation failure none of the three
components is committed. -/
theorem C1_counterexample :
    (get_hashes 32 (fun _ => false) kdV "pw" "hashes" ⟨"(", "S,V", []⟩).1 =
        Outcome.verifyAbort ∧
    (get_hashes 32 (fun _ => false) kdV "pw" "hashes" ⟨"(", "S,V", []⟩).2.1 =
        { HASHES := [], HASH_KEY := 7, HASH_REGEX := "(" } ∧
    initState.HASH_KEY = 0 ∧ initState.HASH_REGEX = "" := by
  decide

/-- C1 (amended): only the hash set obeys no-partial-activation — it is
committed to the globals exactly when overall validation succeeds; the key
and the detection regex are committed as soon as the stored verifier
matches the computed verifier, before regex compilation and hash-line
validation complete (on failure the run then aborts via `bye()`). -/
theorem C1_commit_discipline (b : Nat) (regexOk : String → Bool)
    (kd : String → String → Nat × String × String) (pwd f : String)
    (art : Artifact) :
    ((get_hashes b regexOk kd pwd f art).1 ≠ Outcome.activated →
        (get_hashes b regexOk kd pwd f art).2.1.HASHES = []) ∧
    (∀ salt verifier, pySplitComma art.secondLine = [salt, verifier] →
        (kd pwd salt).2.1 = verifier →
        (get_hashes b regexOk kd pwd f art).2.1.HASH_KEY = (kd pwd salt).1 ∧
        (get_hashes b regexOk kd pwd f art).2.1.HASH_REGEX = art.regexLine) := by
  constructor
  · intro hne
    rcases hsp : pySplitComma art.secondLine with _ | ⟨salt, l1⟩
    · simp [get_hashes, hsp, initState]
    rcases l1 with _ | ⟨verifier, l2⟩
    · simp [get_hashes, hsp, initState]
    rcases l2 with _ | ⟨x, l3⟩
    swap
    · simp [get_hashes, hsp, initState]
    by_cases hcf : (checkHashLines b
        ((verifier != (kd pwd salt).2.1) || !regexOk art.regexLine)
        art.hashLines).1 = true
    · simp only [get_hashes, hsp]
      rw [if_pos hcf]
      split <;> rfl
    · exfalso
      apply hne
      simp only [get_hashes, hsp]
      rw [if_neg hcf]
  · intro salt verifier hsp hv
    simp only [get_hashes, hsp]
    have hb : ((verifier != (kd pwd salt).2.1) : Bool) = false := by
      simp [hv]
    rw [hb]
    split <;> simp

/-- C1 witness: at a concrete matching-verifier artifact that fails regex
validation, the amended theorem yields the committed key and regex and the
empty hash set. -/
theorem C1_commit_discipline_witness :
    (get_hashes 32 (fun _ => false) kdV "pw" "w1" ⟨"[", "S,V", []⟩).2.1.HASHES = [] ∧
    (get_hashes 32 (fun _ => false) kdV "pw" "w1" ⟨"[", "S,V", []⟩).2.1.HASH_KEY = 7 ∧
    (get_hashes 32 (fun _ => false) kdV "pw" "w1" ⟨"[", "S,V", []⟩).2.1.HASH_REGEX = "[" := by
  refine ⟨(C1_commit_discipline 32 (fun _ => false) kdV "pw" "w1" ⟨"[", "S,V", []⟩).1
      (by decide),
    ((C1_commit_discipline 32 (fun _ => false) kdV "pw" "w1" ⟨"[", "S,V", []⟩).2
      "S" "V" (by decide) rfl).1,
    ((C1_commit_discipline 32 (fun _ => false) kdV "pw" "w1" ⟨"[", "S,V", []⟩).2
      "S" "V" (by decide) rfl).2⟩

/-! ## C2 — buffering of valid-looking hash lines -/

/-- C2 counterexample: `"abcd"` is a valid-looking hash line for
`HASH_BYTES = 2`, yet when a failure has already been recorded (the loop is
entered with `fail = true`, as happens after a verifier mismatch or invalid
regex), it is not buffered: `if not fail: hashes.append(ahash)` skips it,
refuting the claim that valid-looking lines are buffered regardless of the
failure state. -/
theorem C2_counterexample :
    lineValid 2 "abcd" = true ∧ (checkHashLines 2 true ["abcd"]).2.1 = [] := by
  decide

/-- C2 (amended): a valid-looking hash line is buffered only while no
failure has been recorded: the candidate list is empty whenever the loop is
entered with a recorded failure, and otherwise holds exactly the stripped
lines strictly before the first malformed one. -/
theorem C2_buffer_only_before_failure (b : Nat) (lines : List String)
    (fail : Bool) :
    (checkHashLines b fail lines).2.1 =
      if fail then [] else (lines.takeWhile (lineValid b)).map pyStrip :=
  checkHashLines_buffer b lines fail

/-! ## C3 — all-or-nothing activation on a malformed hash line -/

/-- C3 counterexample: an artifact with a matching verifier, a valid regex,
one well-formed hash line and one malformed one.  The hash set stays empty,
but the run terminates via `bye()` (outcome `verifyAbort`) rather than
proceeding to scan, and the key and regex are populated (`7`, `"x"`) rather
than zero/empty — refuting both the "zero key, empty regex" part and the
"scan proceeds as if no hash list were supplied" part. -/
theorem C3_counterexample :
    lineValid 2 "abcd" = true ∧ lineValid 2 "zz" = false ∧
    (get_hashes 2 (fun _ => true) kdV "pw" "hashes" ⟨"x", "S,V", ["abcd", "zz"]⟩).1 =
        Outcome.verifyAbort ∧
    (get_hashes 2 (fun _ => true) kdV "pw" "hashes" ⟨"x", "S,V", ["abcd", "zz"]⟩).2.1 =
        { HASHES := [], HASH_KEY := 7, HASH_REGEX := "x" } := by
  decide

/-- C3 (amended): if any hash line of the artifact is malformed, activation
does not happen — the outcome is not `activated` and the committed hash set
stays empty — and the run is aborted (`bye()`), so no scan with the hash
list takes place; the key and regex, however, may remain populated when the
verifier matched. -/
theorem C3_malformed_line_blocks_activation (b : Nat) (regexOk : String → Bool)
    (kd : String → String → Nat × String × String) (pwd f : String)
    (art : Artifact)
    (hbad : art.hashLines.any (fun l => !lineValid b l) = true) :
    (get_hashes b regexOk kd pwd f art).1 ≠ Outcome.activated ∧
    (get_hashes b regexOk kd pwd f art).2.1.HASHES = [] := by
  rcases hsp : pySplitComma art.secondLine with _ | ⟨salt, l1⟩
  · simp [get_hashes, hsp, initState]
  rcases l1 with _ | ⟨verifier, l2⟩
  · simp [get_hashes, hsp, initState]
  rcases l2 with _ | ⟨x, l3⟩
  swap
  · simp [get_hashes, hsp, initState]
  have hfail : (checkHashLines b
      ((verifier != (kd pwd salt).2.1) || !regexOk art.regexLine)
      art.hashLines).1 = true := by
    rw [checkHashLines_fail_eq]
    simp [hbad]
  constructor
  · simp only [get_hashes, hsp]
    rw [if_pos hfail]
    simp
  · simp only [get_hashes, hsp]
    rw [if_pos hfail]
    split <;> rfl

/-- C3 witness: a concrete artifact whose single hash line is malformed is
not activated and commits no hashes. -/
theorem C3_malformed_line_blocks_activation_witness :
    (get_hashes 2 (fun _ => true) kdV "pw" "w3" ⟨"y", "S,V", ["zz"]⟩).1 ≠
        Outcome.activated ∧
    (get_hashes 2 (fun _ => true) kdV "pw" "w3" ⟨"y", "S,V", ["zz"]⟩).2.1.HASHES = [] :=
  C3_malformed_line_blocks_activation 2 (fun _ => true) kdV "pw" "w3"
    ⟨"y", "S,V", ["zz"]⟩ (by decide)

/-! ## C4 — failures accumulate -/

/-- C4: when the stored verifier mismatches the computed one and the
detection regex fails to compile, both failure reasons are logged, every
malformed hash line is additionally reported per line (wrong length and
non-hex content each with their own message), and only then does the run
terminate: the outcome is `verifyAbort` and the final log line is the
aborting message. -/
theorem C4_failures_accumulate (b : Nat) (regexOk : String → Bool)
    (kd : String → String → Nat × String × String) (pwd f : String)
    (art : Artifact) (salt verifier : String)
    (hsp : pySplitComma art.secondLine = [salt, verifier])
    (hv : (kd pwd salt).2.1 ≠ verifier)
    (hr : regexOk art.regexLine = false) :
    (get_hashes b regexOk kd pwd f art).1 = Outcome.verifyAbort ∧
    "verifier does not match (incorrect password?)" ∈
        (get_hashes b regexOk kd pwd f art).2.2 ∧
    "invalid regex" ∈ (get_hashes b regexOk kd pwd f art).2.2 ∧
    (∀ l ∈ art.hashLines, (pyStrip l).length ≠ 2 * b →
        lenMsg (pyStrip l) ∈ (get_hashes b regexOk kd pwd f art).2.2) ∧
    (∀ l ∈ art.hashLines, pyIntHexOk (pyStrip l) = false →
        hexMsg (pyStrip l) ∈ (get_hashes b regexOk kd pwd f art).2.2) ∧
    (get_hashes b regexOk kd pwd f art).2.2.getLast? =
        some "hashes file failed to verify, aborting..." := by
  have hb : ((verifier != (kd pwd salt).2.1) : Bool) = true :=
    bne_iff_ne.mpr (Ne.symm hv)
  have hfail : (checkHashLines b true art.hashLines).1 = true := by
    rw [checkHashLines_fail_eq]
    rfl
  simp only [get_hashes, hsp, hb, hr, Bool.not_false, Bool.true_or]
  rw [if_pos hfail]
  refine ⟨rfl, ?_, ?_, ?_, ?_, ?_⟩
  · simp
  · simp
  · intro l hl hlen
    have := checkHashLines_log_of_badlen b art.hashLines true l hl hlen
    simp only [List.mem_append]
    tauto
  · intro l hl hhex
    have := checkHashLines_log_of_badhex b art.hashLines true l hl hhex
    simp only [List.mem_append]
    tauto
  · exact List.getLast?_concat _

/-- C4 witness: artifact with wrong verifier, uncompilable regex, and the
malformed line `"zz"`: both reasons and both per-line reports appear, and
the final log line is the aborting message. -/
theorem C4_failures_accumulate_witness :
    (get_hashes 2 (fun _ => false) kdV "pw" "w4" ⟨"(", "S,W", ["zz"]⟩).1 =
        Outcome.verifyAbort ∧
    "verifier does not match (incorrect password?)" ∈
        (get_hashes 2 (fun _ => false) kdV "pw" "w4" ⟨"(", "S,W", ["zz"]⟩).2.2 ∧
    "invalid regex" ∈
        (get_hashes 2 (fun _ => false) kdV "pw" "w4" ⟨"(", "S,W", ["zz"]⟩).2.2 ∧
    lenMsg "zz" ∈
        (get_hashes 2 (fun _ => false) kdV "pw" "w4" ⟨"(", "S,W", ["zz"]⟩).2.2 ∧
    hexMsg "zz" ∈
        (get_hashes 2 (fun _ => false) kdV "pw" "w4" ⟨"(", "S,W", ["zz"]⟩).2.2 ∧
    (get_hashes 2 (fun _ => false) kdV "pw" "w4" ⟨"(", "S,W", ["zz"]⟩).2.2.getLast? =
        some "hashes file failed to verify, aborting..." := by
  obtain ⟨h1, h2, h3, h4, h5, h6⟩ :=
    C4_failures_accumulate 2 (fun _ => false) kdV "pw" "w4" ⟨"(", "S,W", ["zz"]⟩
      "S" "W" (by decide) (by decide) rfl
  exact ⟨h1, h2, h3, h4 "zz" (by decide) (by decide), h5 "zz" (by decide) (by decide), h6⟩

/-! ## C5 — the second-line parse failure is the only short-circuit -/

/-- C5: when the second line does not split into exactly two
comma-separated fields, `get_hashes` aborts at once with exactly the
opening comment and the parse diagnostic — the result is one fixed value
for every `HASH_BYTES`, regex engine, key-derivation function and
password, so no key derivation, verifier comparison, regex compilation or
hash-line checking can have been attempted; and whenever the second line
does split into two fields, the outcome is never `parseAbort`, making this
the only short-circuiting validation failure. -/
theorem C5_parse_failure_short_circuits (b : Nat) (regexOk : String → Bool)
    (kd : String → String → Nat × String × String) (pwd f : String)
    (art : Artifact) :
    ((pySplitComma art.secondLine).length ≠ 2 →
      get_hashes b regexOk kd pwd f art =
        (Outcome.parseAbort, initState,
         ["verifying hashes file " ++ f ++ "...",
          "failed to extract verifier and salt"])) ∧
    ((pySplitComma art.secondLine).length = 2 →
      (get_hashes b regexOk kd pwd f art).1 ≠ Outcome.parseAbort) := by
  constructor
  · intro hne
    rcases hsp : pySplitComma art.secondLine with _ | ⟨salt, l1⟩
    · simp [get_hashes, hsp]
    rcases l1 with _ | ⟨verifier, l2⟩
    · simp [get_hashes, hsp]
    rcases l2 with _ | ⟨x, l3⟩
    · rw [hsp] at hne
      simp at hne
    · simp [get_hashes, hsp]
  · intro h2
    rcases hsp : pySplitComma art.secondLine with _ | ⟨salt, l1⟩
    · rw [hsp] at h2; simp at h2
    rcases l1 with _ | ⟨verifier, l2⟩
    · rw [hsp] at h2; simp at h2
    rcases l2 with _ | ⟨x, l3⟩
    · simp only [get_hashes, hsp]
      split <;> simp
    · rw [hsp] at h2; simp at h2

/-- C5 witness: a second line without a comma aborts with the two-line
log for arbitrary stand-in collaborators, and a well-formed second line
never yields `parseAbort`. -/
theorem C5_parse_failure_short_circuits_witness :
    get_hashes 32 (fun _ => true) kdV "pw" "w5" ⟨"x", "SV", ["aa"]⟩ =
      (Outcome.parseAbort, initState,
       ["verifying hashes file w5...", "failed to extract verifier and salt"]) ∧
    (get_hashes 32 (fun _ => true) kdV "pw" "w5b" ⟨"x", "S,V", []⟩).1 ≠
      Outcome.parseAbort :=
  ⟨(C5_parse_failure_short_circuits 32 (fun _ => true) kdV "pw" "w5"
      ⟨"x", "SV", ["aa"]⟩).1 (by decide),
   (C5_parse_failure_short_circuits 32 (fun _ => true) kdV "pw" "w5b"
      ⟨"x", "S,V", []⟩).2 (by decide)⟩

/-! ## C6 — uniqueness accounting on success -/

/-- C6: for a successfully validated artifact, the committed hash set is
the deduplicated list of stripped hash lines, its size never exceeds the
raw line count and is strictly smaller exactly when duplicates exist, and
the log reports both the raw count and the unique count in one message. -/
theorem C6_uniqueness_accounting (b : Nat) (regexOk : String → Bool)
    (kd : String → String → Nat × String × String) (pwd f : String)
    (art : Artifact) (salt verifier : String)
    (hsp : pySplitComma art.secondLine = [salt, verifier])
    (hv : (kd pwd salt).2.1 = verifier)
    (hr : regexOk art.regexLine = true)
    (hall : art.hashLines.all (lineValid b) = true) :
    (get_hashes b regexOk kd pwd f art).1 = Outcome.activated ∧
    (get_hashes b regexOk kd pwd f art).2.1.HASHES =
        (art.hashLines.map pyStrip).dedup ∧
    (get_hashes b regexOk kd pwd f art).2.1.HASHES.length ≤
        art.hashLines.length ∧
    (¬ (art.hashLines.map pyStrip).Nodup →
      (get_hashes b regexOk kd pwd f art).2.1.HASHES.length <
        art.hashLines.length) ∧
    (toString art.hashLines.length ++ " hashes read, " ++
        toString (art.hashLines.map pyStrip).dedup.length ++ " uniques") ∈
      (get_hashes b regexOk kd pwd f art).2.2 := by
  have hb : ((verifier != (kd pwd salt).2.1) : Bool) = false := by
    simp [hv]
  have hvalid : art.hashLines.any (fun l => !lineValid b l) = false := by
    rw [List.any_eq_false]
    intro l hl
    simp [List.all_eq_true.mp hall l hl]
  have hcf : ¬ ((checkHashLines b false art.hashLines).1 = true) := by
    rw [checkHashLines_fail_eq]
    simp [hvalid]
  have hbuf : (checkHashLines b false art.hashLines).2.1 =
      art.hashLines.map pyStrip := by
    rw [checkHashLines_buffer]
    simp only [if_neg Bool.false_ne_true]
    rw [List.takeWhile_eq_self_iff.mpr (List.all_eq_true.mp hall)]
  have hlen : ((art.hashLines.map pyStrip).dedup).length ≤
      art.hashLines.length := by
    have := (List.dedup_sublist (art.hashLines.map pyStrip)).length_le
    simpa using this
  simp only [get_hashes, hsp, hb, hr, Bool.not_true, Bool.false_or]
  rw [if_neg hcf]
  refine ⟨rfl, ?_, ?_, ?_, ?_⟩
  · simp [hbuf]
  · simp [hbuf, hlen]
  · intro hnd
    rcases Nat.lt_or_ge ((art.hashLines.map pyStrip).dedup).length
        art.hashLines.length with hlt | hge
    · simpa [hbuf] using hlt
    · exfalso
      apply hnd
      have heq : ((art.hashLines.map pyStrip).dedup).length =
          (art.hashLines.map pyStrip).length := by
        simp only [List.length_map]
        omega
      have := (List.dedup_sublist (art.hashLines.map pyStrip)).eq_of_length heq
      rw [← this]
      exact List.nodup_dedup _
  · simp [hbuf]

/-- C6 witness: an artifact whose three valid hash lines contain a
duplicate activates with a two-element hash set, strictly fewer uniques
than raw lines, and logs `"3 hashes read, 2 uniques"`. -/
theorem C6_uniqueness_accounting_witness :
    (get_hashes 2 (fun _ => true) kdV "pw" "w6"
        ⟨"x", "S,V", ["abcd", "abcd", "00ff"]⟩).1 = Outcome.activated ∧
    (get_hashes 2 (fun _ => true) kdV "pw" "w6"
        ⟨"x", "S,V", ["abcd", "abcd", "00ff"]⟩).2.1.HASHES = ["abcd", "00ff"] ∧
    (get_hashes 2 (fun _ => true) kdV "pw" "w6"
        ⟨"x", "S,V", ["abcd", "abcd", "00ff"]⟩).2.1.HASHES.length < 3 ∧
    (toString 3 ++ " hashes read, " ++ toString 2 ++ " uniques") ∈
      (get_hashes 2 (fun _ => true) kdV "pw" "w6"
        ⟨"x", "S,V", ["abcd", "abcd", "00ff"]⟩).2.2 := by
  obtain ⟨h1, h2, _, h4, h5⟩ :=
    C6_uniqueness_accounting 2 (fun _ => true) kdV "pw" "w6"
      ⟨"x", "S,V", ["abcd", "abcd", "00ff"]⟩ "S" "V" (by decide) rfl rfl (by decide)
  refine ⟨h1, ?_, h4 (by decide), ?_⟩
  · rw [h2]; decide
  · have hd : (((["abcd", "abcd", "00ff"] : List String).map pyStrip).dedup).length = 2 := by
      decide
    simpa [hd] using h5

/-! ## C7 — traversal exclusion is total -/

/-- The names of the directory children (the `dirs` list of `os.walk`). -/
def dirNames (cs : List FSTree) : List String :=
  cs.filterMap (fun t => match t with | .dir n _ => some n | .file _ _ => none)

mutual

/-- Well-formedness of a modelled filesystem: sibling directory names are
distinct at every level (true of a real filesystem, and what makes the
remove-first pruning of `dirs.remove(skip)` remove every excluded
directory). -/
def wfTree : FSTree → Bool
  | .file _ _ => true
  | .dir _ cs => decide (dirNames cs).Nodup && wfList cs

/-- Well-formedness of a list of siblings' subtrees. -/
def wfList : List FSTree → Bool
  | [] => true
  | t :: ts => wfTree t && wfList ts

end

theorem wfList_mem : ∀ {cs : List FSTree}, wfList cs = true →
    ∀ {t : FSTree}, t ∈ cs → wfTree t = true := by
  intro cs
  induction cs with
  | nil => intro _ t ht; cases ht
  | cons u us ih =>
      intro h t ht
      rw [wfList, Bool.and_eq_true] at h
      rcases List.mem_cons.mp ht with rfl | hm
      · exact h.1
      · exact ih h.2 hm

theorem removeFirstDir_sublist (s : String) (cs : List FSTree) :
    List.Sublist (removeFirstDir s cs) cs := by
  induction cs with
  | nil => simp [removeFirstDir]
  | cons u us ih =>
      rw [removeFirstDir]
      split
      · exact List.sublist_cons_self u us
      · exact ih.cons₂ u

theorem dirNames_sublist {cs ds : List FSTree} (h : List.Sublist cs ds) :
    List.Sublist (dirNames cs) (dirNames ds) :=
  h.filterMap _

theorem name_mem_dirNames {t : FSTree} {cs : List FSTree} (ht : t ∈ cs)
    (hd : t.isDir = true) : t.name ∈ dirNames cs := by
  rcases t with ⟨n, sz⟩ | ⟨n, cs'⟩
  · simp [FSTree.isDir] at hd
  · exact List.mem_filterMap.mpr ⟨.dir n cs', ht, rfl⟩

theorem name_ne_of_mem_removeFirstDir (s : String) :
    ∀ (cs : List FSTree), (dirNames cs).Nodup →
    ∀ t ∈ removeFirstDir s cs, t.isDir = true → t.name ≠ s := by
  intro cs
  induction cs with
  | nil => intro _ t ht; cases ht
  | cons u us ih =>
      intro hnd t ht hdir
      rw [removeFirstDir] at ht
      by_cases hc : (u.isDir && u.name == s) = true
      · rw [if_pos hc] at ht
        rw [Bool.and_eq_true, beq_iff_eq] at hc
        intro heq
        rcases u with ⟨un, usz⟩ | ⟨un, ucs⟩
        · simp [FSTree.isDir] at hc
        · have hmem : t.name ∈ dirNames us := name_mem_dirNames ht hdir
          have hdn : (dirNames (FSTree.dir un ucs :: us)) = un :: dirNames us := by
            simp [dirNames]
          rw [hdn] at hnd
          apply (List.nodup_cons.mp hnd).1
          have hun : un = s := hc.2
          rw [hun, ← heq]
          exact hmem
      · rw [if_neg hc] at ht
        rcases List.mem_cons.mp ht with rfl | hm
        · intro heq
          exact hc (by simp [hdir, heq])
        · have hnd' : (dirNames us).Nodup :=
            List.Nodup.sublist
              (dirNames_sublist (List.sublist_cons_self u us)) hnd
          exact ih hnd' t hm hdir

theorem nodup_dirNames_removeFirstDir (s : String) (cs : List FSTree)
    (h : (dirNames cs).Nodup) : (dirNames (removeFirstDir s cs)).Nodup :=
  List.Nodup.sublist (dirNames_sublist (removeFirstDir_sublist s cs)) h

theorem name_not_mem_of_mem_pruneDirs :
    ∀ (SKIP : List String) (cs : List FSTree), (dirNames cs).Nodup →
    ∀ t ∈ pruneDirs SKIP cs, t.isDir = true → t.name ∉ SKIP := by
  intro SKIP
  induction SKIP with
  | nil => intro cs _ t _ _ h; cases h
  | cons s ss ih =>
      intro cs hnd t ht hdir hmem
      have ht' : t ∈ pruneDirs ss (removeFirstDir s cs) := ht
      rcases List.mem_cons.mp hmem with rfl | hm
      · exact name_ne_of_mem_removeFirstDir t.name cs hnd t
          (mem_pruneDirs ht') hdir rfl
      · exact ih (removeFirstDir s cs)
          (nodup_dirNames_removeFirstDir s cs hnd) t ht' hdir hm

theorem walkFrom_entry_dirs (SKIP : List String) :
    ∀ (n : Nat) (tree : FSTree), sizeOf tree ≤ n → wfTree tree = true →
    ∀ (pre : List String), ∀ e ∈ walkFrom SKIP pre tree,
      ∃ suf, e.dirs = pre ++ suf ∧ ∀ d ∈ suf, d ∉ SKIP := by
  intro n
  induction n with
  | zero =>
      intro tree h
      exfalso
      cases tree <;> simp_arith at h
  | succ n ih =>
      intro tree hsz hwf pre e he
      cases tree with
      | file nm sz => simp [walkFrom] at he
      | dir nm cs =>
          rw [walkFrom] at he
          rw [List.mem_append] at he
          rcases he with hfe | hrec
          · rcases List.mem_filterMap.mp hfe with ⟨t, ht, hmap⟩
            rcases t with ⟨fn, fsz⟩ | ⟨dn, dcs⟩
            · simp only [Option.some.injEq] at hmap
              refine ⟨[], ?_, by simp⟩
              rw [← hmap]
              simp
            · simp at hmap
          · rw [List.mem_flatten] at hrec
            obtain ⟨l, hl, hel⟩ := hrec
            rw [List.mem_map] at hl
            obtain ⟨⟨t, htp⟩, _, rfl⟩ := hl
            have htcs : t ∈ cs := mem_pruneDirs htp
            have hwfparts : (dirNames cs).Nodup ∧ wfTree t = true := by
              rw [wfTree, Bool.and_eq_true, decide_eq_true_eq] at hwf
              exact ⟨hwf.1, wfList_mem hwf.2 htcs⟩
            have hszt : sizeOf t ≤ n := by
              have h1 := List.sizeOf_lt_of_mem htcs
              have h2 : sizeOf (FSTree.dir nm cs) = 1 + sizeOf nm + sizeOf cs :=
                FSTree.dir.sizeOf_spec nm cs
              omega
            obtain ⟨suf', hdirs, havoid⟩ :=
              ih t hszt hwfparts.2 (pre ++ [t.name]) e hel
            rcases t with ⟨fn, fsz⟩ | ⟨dn, dcs⟩
            · simp [walkFrom] at hel
            · have hname : (FSTree.dir dn dcs).name ∉ SKIP :=
                name_not_mem_of_mem_pruneDirs SKIP cs hwfparts.1 _ htp rfl
              refine ⟨(FSTree.dir dn dcs).name :: suf', by simpa using hdirs, ?_⟩
              intro d hd
              rcases List.mem_cons.mp hd with rfl | hm
              · exact hname
              · exact havoid d hm

/-- C7: over a well-formed tree (distinct sibling directory names, as on a
real filesystem), no file enumerated by the pruned walk lies below a
directory whose name is in the exclusion set — and both passes consume
exactly this enumeration: `init`'s count is its length (its size is summed
over the same list) and `scan` folds its dispatch body over the same list.
So a file inside an excluded directory, at any depth, contributes to no
count, no size, and no scan. -/
theorem C7_exclusion_total (SKIP : List String) (tree : FSTree)
    (hwf : wfTree tree = true) :
    (∀ e ∈ walkFrom SKIP [] tree, ∀ d ∈ e.dirs, d ∉ SKIP) ∧
    initCount SKIP tree = (walkFrom SKIP [] tree).length ∧
    initSize SKIP tree =
      ((walkFrom SKIP [] tree).map (fun e => e.size.getD 0)).sum ∧
    (∀ nm cl ENC, scan SKIP nm cl ENC tree =
      (walkFrom SKIP [] tree).foldl (dispatchFile nm cl ENC) (0, [])) := by
  refine ⟨?_, rfl, rfl, fun _ _ _ => rfl⟩
  intro e he d hd
  obtain ⟨suf, hsuf, havoid⟩ :=
    walkFrom_entry_dirs SKIP (sizeOf tree) tree le_rfl hwf [] e he
  rw [hsuf] at hd
  exact havoid d (by simpa using hd)

/-- C7 witness: in a tree with `.git` directories at two depths, the walk
enumerates exactly the two files outside them, the surviving path component
`"sub"` is not excluded, and the files under either `.git` are absent. -/
theorem C7_exclusion_total_witness :
    wfTree (FSTree.dir "root"
      [.file "a" (some 1),
       .dir ".git" [.file "hidden" (some 5), .dir "deep" [.file "x" (some 7)]],
       .dir "sub" [.file "b" (some 2), .dir ".git" [.file "h2" (some 3)]]]) = true ∧
    ("sub" : String) ∉ ([".git"] : List String) ∧
    walkFrom [".git"] [] (FSTree.dir "root"
      [.file "a" (some 1),
       .dir ".git" [.file "hidden" (some 5), .dir "deep" [.file "x" (some 7)]],
       .dir "sub" [.file "b" (some 2), .dir ".git" [.file "h2" (some 3)]]]) =
      [⟨[], "a", some 1⟩, ⟨["sub"], "b", some 2⟩] := by
  have hwf : wfTree (FSTree.dir "root"
      [.file "a" (some 1),
       .dir ".git" [.file "hidden" (some 5), .dir "deep" [.file "x" (some 7)]],
       .dir "sub" [.file "b" (some 2), .dir ".git" [.file "h2" (some 3)]]]) = true := by
    decide
  have hwalk : walkFrom [".git"] [] (FSTree.dir "root"
      [.file "a" (some 1),
       .dir ".git" [.file "hidden" (some 5), .dir "deep" [.file "x" (some 7)]],
       .dir "sub" [.file "b" (some 2), .dir ".git" [.file "h2" (some 3)]]]) =
      [⟨[], "a", some 1⟩, ⟨["sub"], "b", some 2⟩] := by
    simp [walkFrom, pruneDirs, removeFirstDir, FSTree.isDir, FSTree.name]
  refine ⟨hwf, ?_, hwalk⟩
  exact (C7_exclusion_total [".git"] _ hwf).1
    ⟨["sub"], "b", some 2⟩ (by rw [hwalk]; simp) "sub" (by simp)

/-! ## C8 — encrypted-type files are never content-scanned -/

/-- C8: for a file the classifier marks supported with a type in the
encrypted set, the dispatch body appends only the optional filename-match
finding followed by the report-only encrypted notice — it adds no `doFile`
(content-scanner) event and leaves the processed counter unchanged; and
`scan` is exactly the fold of this body over the enumerated files, so such
a file is never content-scanned and never counted in the returned
`processedCount`. -/
theorem C8_encrypted_reported_not_scanned (nm : String → Option String)
    (classify : FileEntry → String × Bool) (ENC : List String) (e : FileEntry)
    (hsup : (classify e).2 = true) (henc : (classify e).1 ∈ ENC) :
    (∀ acc : Nat × List Event,
      (dispatchFile nm classify ENC acc e).1 = acc.1 ∧
      (dispatchFile nm classify ENC acc e).2 =
        (match nm e.name.toLower with
         | some g => acc.2 ++ [Event.secretName g (entryPath e)]
         | none => acc.2) ++ [Event.encryptedNotice (classify e).1 e.name] ∧
      (∀ ft ap, Event.doFile ft ap ∈ (dispatchFile nm classify ENC acc e).2 →
        Event.doFile ft ap ∈ acc.2)) ∧
    (∀ SKIP tree, scan SKIP nm classify ENC tree =
      (walkFrom SKIP [] tree).foldl (dispatchFile nm classify ENC) (0, [])) := by
  refine ⟨?_, fun _ _ => rfl⟩
  intro acc
  refine ⟨?_, ?_, ?_⟩
  · rw [dispatchFile]
    simp [hsup, henc]
  · rw [dispatchFile]
    simp [hsup, henc]
  · intro ft ap hmem
    rw [dispatchFile] at hmem
    simp only [hsup, eq_self_iff_true, if_true, if_pos henc] at hmem
    cases hnm : nm e.name.toLower with
    | none =>
        rw [hnm] at hmem
        simp only [List.mem_append, List.mem_singleton] at hmem
        rcases hmem with h | h
        · exact h
        · exact absurd h (by simp)
    | some g =>
        rw [hnm] at hmem
        simp only [List.mem_append, List.mem_singleton] at hmem
        rcases hmem with (h | h) | h
        · exact h
        · exact absurd h (by simp)
        · exact absurd h (by simp)

/-- C8 witness: a supported `"pgp"`-typed file with an encrypted-set entry
adds only the encrypted notice, keeps `scanned` at 5, and introduces no
content-scan event. -/
theorem C8_encrypted_reported_not_scanned_witness :
    (dispatchFile (fun _ => none) (fun _ => ("pgp", true)) ["pgp"]
        (5, []) ⟨[], "doc.gpg", some 9⟩).1 = 5 ∧
    (dispatchFile (fun _ => none) (fun _ => ("pgp", true)) ["pgp"]
        (5, []) ⟨[], "doc.gpg", some 9⟩).2 =
      [Event.encryptedNotice "pgp" "doc.gpg"] ∧
    (∀ ft ap, Event.doFile ft ap ∈
        (dispatchFile (fun _ => none) (fun _ => ("pgp", true)) ["pgp"]
          (5, []) ⟨[], "doc.gpg", some 9⟩).2 →
      Event.doFile ft ap ∈ ([] : List Event)) := by
  obtain ⟨h1, h2, h3⟩ :=
    (C8_encrypted_reported_not_scanned (fun _ => none)
      (fun _ => ("pgp", true)) ["pgp"] ⟨[], "doc.gpg", some 9⟩ rfl
      (by simp)).1 (5, [])
  exact ⟨h1, h2, h3⟩

/-! ## C9 — the summary token count -/

/-- Specification-side definition of "the number of occurrences of the
marker": the number of positions of `hay` at which `needle` occurs (to be
compared with the code's left-to-right non-overlapping scan). -/
def occCount (needle hay : List Char) : Nat :=
  (List.range hay.length).countP (fun i => needle.isPrefixOf (hay.drop i))

theorem occCount_cons (nd : List Char) (c : Char) (cs : List Char) :
    occCount nd (c :: cs) =
      (if nd.isPrefixOf (c :: cs) then 1 else 0) + occCount nd cs := by
  simp only [occCount, List.length_cons, List.range_succ_eq_map,
    List.countP_cons, List.countP_map, List.drop_zero]
  have hfun : ((fun i => nd.isPrefixOf ((c :: cs).drop i)) ∘ Nat.succ) =
      (fun i => nd.isPrefixOf (cs.drop i)) := by
    funext i
    simp [Function.comp, List.drop_succ_cons]
  rw [hfun]
  omega

theorem occCount_prefix_skip (nd : List Char) (hne : nd ≠ [])
    (hnb : ∀ k, 0 < k → k < nd.length → (nd.drop k).isPrefixOf nd = false)
    (t : List Char) :
    occCount nd (nd ++ t) = 1 + occCount nd t := by
  simp only [occCount, List.length_append, List.range_add,
    List.countP_append, List.countP_map]
  have hfun : ((fun i => nd.isPrefixOf ((nd ++ t).drop i)) ∘
      (fun x => nd.length + x)) = (fun i => nd.isPrefixOf (t.drop i)) := by
    funext i
    simp only [Function.comp]
    rw [← List.drop_drop, List.drop_left]
  rw [hfun]
  have hpart1 : (List.range nd.length).countP
      (fun i => nd.isPrefixOf ((nd ++ t).drop i)) = 1 := by
    obtain ⟨m, hm⟩ : ∃ m, nd.length = m + 1 :=
      ⟨nd.length - 1, (Nat.succ_pred_eq_of_pos (List.length_pos.mpr hne)).symm⟩
    rw [hm, List.range_succ_eq_map, List.countP_cons, List.countP_map]
    have hzero : (fun i => nd.isPrefixOf ((nd ++ t).drop i)) 0 = true := by
      simp only [List.drop_zero]
      exact List.isPrefixOf_iff_prefix.mpr (List.prefix_append nd t)
    have hrest : (List.range m).countP
        ((fun i => nd.isPrefixOf ((nd ++ t).drop i)) ∘ Nat.succ) = 0 := by
      apply List.countP_eq_zero.mpr
      intro a ha
      simp only [Function.comp, Bool.not_eq_true]
      have ha' : a < m := List.mem_range.mp ha
      have hle : a + 1 ≤ nd.length := by omega
      rw [List.drop_append_of_le_length hle]
      by_contra hcon
      rw [Bool.not_eq_false] at hcon
      have hpre : List.IsPrefix nd (nd.drop (a + 1) ++ t) :=
        List.isPrefixOf_iff_prefix.mp hcon
      have hpre2 : List.IsPrefix (nd.drop (a + 1)) (nd.drop (a + 1) ++ t) :=
        List.prefix_append _ _
      have hlenle : (nd.drop (a + 1)).length ≤ nd.length := by
        rw [List.length_drop]
        omega
      have hfinal : List.IsPrefix (nd.drop (a + 1)) nd :=
        List.prefix_of_prefix_length_le hpre2 hpre hlenle
      have := hnb (a + 1) (by omega) (by omega)
      rw [List.isPrefixOf_iff_prefix.mpr hfinal] at this
      simp at this
    rw [hrest]
    have hzero' : nd.isPrefixOf (List.drop 0 (nd ++ t)) = true := by
      simp only [List.drop_zero]
      exact List.isPrefixOf_iff_prefix.mpr (List.prefix_append nd t)
    simp [hzero']
  rw [hpart1]

theorem pyCount_eq_occCount (nd : List Char) (hne : nd ≠ [])
    (hnb : ∀ k, 0 < k → k < nd.length → (nd.drop k).isPrefixOf nd = false) :
    ∀ hay, pyCount nd hay = occCount nd hay := by
  have main : ∀ n hay, hay.length ≤ n → pyCount nd hay = occCount nd hay := by
    intro n
    induction n with
    | zero =>
        intro hay h
        have hnil : hay = [] := List.eq_nil_of_length_eq_zero (Nat.le_zero.mp h)
        subst hnil
        simp [pyCount, occCount]
    | succ n ih =>
        intro hay hlen
        cases hay with
        | nil => simp [pyCount, occCount]
        | cons c cs =>
            simp only [pyCount]
            by_cases hp : nd.isPrefixOf (c :: cs) = true
            · rw [if_pos ⟨hne, hp⟩]
              obtain ⟨t, ht⟩ := List.isPrefixOf_iff_prefix.mp hp
              rw [← ht, occCount_prefix_skip nd hne hnb t]
              congr 1
              have hdrop : cs.drop (nd.length - 1) = t := by
                have h1 : (nd ++ t).drop nd.length = t := List.drop_left nd t
                rw [ht] at h1
                have h2 : nd.length = (nd.length - 1) + 1 :=
                  (Nat.succ_pred_eq_of_pos (List.length_pos.mpr hne)).symm
                rw [h2, List.drop_succ_cons] at h1
                exact h1
              rw [hdrop]
              apply ih
              have h3 : nd.length + t.length = cs.length + 1 := by
                have := congrArg List.length ht
                simpa [List.length_append] using this
              have h4 : 0 < nd.length := List.length_pos.mpr hne
              have h5 : (c :: cs).length = cs.length + 1 := List.length_cons c cs
              omega
            · rw [if_neg (fun h => hp h.2)]
              rw [occCount_cons, if_neg (by simpa using hp)]
              rw [List.length_cons] at hlen
              rw [ih cs (by omega)]
              omega
  intro hay
  exact main hay.length hay le_rfl

theorem secretToken_no_border :
    ∀ k, 0 < k → k < secretToken.length →
      (secretToken.drop k).isPrefixOf secretToken = false := by
  intro k h1 h2
  have h7 : secretToken.length = 7 := rfl
  rw [h7] at h2
  interval_cases k <;> decide

/-- C9 counterexample: on a log text containing the marker twice,
`count_secrets` computes the count (both the scanning count and the
specification count are `2`) but returns `None` — the Python function has
no `return` statement — so it does not return the finding count. -/
theorem C9_counterexample :
    (count_secrets "SECRET,a SECRET,b").1 = none ∧
    occCount secretToken ("SECRET,a SECRET,b").toList = 2 ∧
    pyCount secretToken ("SECRET,a SECRET,b").toList = 2 := by
  refine ⟨rfl, by decide, ?_⟩
  rw [pyCount_eq_occCount secretToken (by decide) secretToken_no_border]
  decide

/-- C9 (amended): `count_secrets` reads the log text and counts the
occurrences of the fixed marker `'SECRET,'` — its scan agrees with the
number of positions at which the marker occurs — and reports that count in
a log message, but returns nothing (`None`) rather than the finding count;
it remains a pure post-hoc tally with no influence on scan behavior. -/
theorem C9_count_logged_not_returned (logs : String) :
    (count_secrets logs).1 = none ∧
    (count_secrets logs).2 =
      [toString (occCount secretToken logs.toList) ++
        " files or strings flagged as \"secret\""] := by
  refine ⟨rfl, ?_⟩
  simp only [count_secrets]
  rw [pyCount_eq_occCount secretToken (by decide) secretToken_no_border]

/-! ## C10 — the human-scaling loop swallows the count at 1024 TiB -/

theorem unitLoop_eq_none (count : Nat) (q : ℚ) (h : 1024 ^ 5 ≤ q) :
    unitLoop count q unitNames = none := by
  have h0 : (0:ℚ) < 1024 := by norm_num
  have c0 : ¬ q < 1024 := by
    have : (1024:ℚ) ≤ 1024 ^ 5 := by norm_num
    linarith
  have c1 : ¬ q / 1024 < 1024 := by
    rw [div_lt_iff₀ h0]
    have : (1024:ℚ) * 1024 ≤ 1024 ^ 5 := by norm_num
    linarith
  have c2 : ¬ q / 1024 / 1024 < 1024 := by
    rw [div_lt_iff₀ h0, div_lt_iff₀ h0]
    have : (1024:ℚ) * 1024 * 1024 ≤ 1024 ^ 5 := by norm_num
    linarith
  have c3 : ¬ q / 1024 / 1024 / 1024 < 1024 := by
    rw [div_lt_iff₀ h0, div_lt_iff₀ h0, div_lt_iff₀ h0]
    have : (1024:ℚ) * 1024 * 1024 * 1024 ≤ 1024 ^ 5 := by norm_num
    linarith
  have c4 : ¬ q / 1024 / 1024 / 1024 / 1024 < 1024 := by
    rw [div_lt_iff₀ h0, div_lt_iff₀ h0, div_lt_iff₀ h0, div_lt_iff₀ h0]
    have : (1024:ℚ) * 1024 * 1024 * 1024 * 1024 = 1024 ^ 5 := by norm_num
    linarith
  simp only [unitNames, unitLoop]
  rw [if_neg c0, if_neg c1, if_neg c2, if_neg c3, if_neg c4]

theorem unitLoop_eq_some (count : Nat) (q : ℚ) (h : q < 1024 ^ 5) :
    unitLoop count q unitNames = some count := by
  have h0 : (0:ℚ) < 1024 := by norm_num
  simp only [unitNames, unitLoop]
  by_cases c0 : q < 1024
  · rw [if_pos c0]
  rw [if_neg c0]
  by_cases c1 : q / 1024 < 1024
  · rw [if_pos c1]
  rw [if_neg c1]
  by_cases c2 : q / 1024 / 1024 < 1024
  · rw [if_pos c2]
  rw [if_neg c2]
  by_cases c3 : q / 1024 / 1024 / 1024 < 1024
  · rw [if_pos c3]
  rw [if_neg c3]
  have c4 : q / 1024 / 1024 / 1024 / 1024 < 1024 := by
    rw [div_lt_iff₀ h0, div_lt_iff₀ h0, div_lt_iff₀ h0, div_lt_iff₀ h0]
    have he : (1024:ℚ) * 1024 * 1024 * 1024 * 1024 = 1024 ^ 5 := by norm_num
    rw [he]
    exact h
  rw [if_pos c4]

/-- C10: `init` falls off the end of its unit loop — returning `None`
instead of the file count — exactly when the enumerated byte total reaches
`1024^5` (1024 TiB, one division per unit bytes/KiB/MiB/GiB/TiB); for any
total strictly below that, it returns the file count. -/
theorem C10_sizing_unit_overflow (SKIP : List String) (tree : FSTree) :
    (1024 ^ 5 ≤ initSize SKIP tree → init SKIP tree = none) ∧
    (initSize SKIP tree < 1024 ^ 5 → init SKIP tree = some (initCount SKIP tree)) := by
  constructor
  · intro h
    simp only [init]
    apply unitLoop_eq_none
    exact_mod_cast h
  · intro h
    simp only [init]
    apply unitLoop_eq_some
    exact_mod_cast h

/-- C10 witness: a root holding one 3-byte file yields its count, while a
root holding a single file of exactly `1024^5` bytes yields `None`. -/
theorem C10_sizing_unit_overflow_witness :
    init [] (FSTree.dir "r" [.file "a" (some 3)]) =
      some (initCount [] (FSTree.dir "r" [.file "a" (some 3)])) ∧
    init [] (FSTree.dir "r" [.file "big" (some (1024 ^ 5))]) = none := by
  constructor
  · apply (C10_sizing_unit_overflow [] (FSTree.dir "r" [.file "a" (some 3)])).2
    have hs : initSize [] (FSTree.dir "r" [.file "a" (some 3)]) = 3 := by
      simp [initSize, walkFrom, pruneDirs]
    rw [hs]
    norm_num
  · apply (C10_sizing_unit_overflow [] (FSTree.dir "r" [.file "big" (some (1024 ^ 5))])).1
    have hs : initSize [] (FSTree.dir "r" [.file "big" (some (1024 ^ 5))]) = 1024 ^ 5 := by
      simp [initSize, walkFrom, pruneDirs]
    rw [hs]

end Blueflower
